import Mathlib

/-!
# Verification of the example-validation engine of `actions-example-checker`

This file gives a shallow embedding of the schema-resolution and
example-validation engine (value normalizer `src/value-normalizer.ts`,
type resolver `src/schema-loader.ts`, validator `src/validator.ts`) and
proves/refutes the frozen specification claims about it.

Strings are processed as `List Char`; JavaScript `RegExp` values that the
code merely *carries around and tests* are modelled as a record of their
source text together with a boolean matcher, while the handful of concrete
regular expressions hard-coded in the sources are translated into explicit
executable recognizers.
-/

set_option maxRecDepth 10000

namespace ExampleChecker

/-! ## JavaScript string primitives -/

/-- Character class of the JavaScript `\s` (whitespace) used by `trim`,
`\s+` replacement and the comment-stripping regex.  We model the ASCII
whitespace characters that can actually occur in YAML documents. -/
def isJsWhitespace (c : Char) : Bool :=
  c == ' ' || c == '\t' || c == '\n' || c == '\r' || c == '\x0b' || c == '\x0c'

/-- JavaScript `String.prototype.trim` on a character list. -/
def jsTrimList (l : List Char) : List Char :=
  ((l.dropWhile isJsWhitespace).reverse.dropWhile isJsWhitespace).reverse

/-- JavaScript `String.prototype.trim`. -/
def jsTrim (s : String) : String :=
  String.mk (jsTrimList s.data)

/-- ASCII lower-casing, the effect of `toLowerCase` on the inputs the
validator compares (`Char.toLower` lowers exactly the ASCII letters). -/
def jsToLower (s : String) : String :=
  String.mk (s.data.map Char.toLower)

/-- Split a character list at every occurrence of character `c`
(the JavaScript `str.split('\n')` splitter). -/
def splitOnChar (c : Char) : List Char → List (List Char)
  | [] => [[]]
  | x :: xs =>
    let rest := splitOnChar c xs
    if x == c then
      [] :: rest
    else
      match rest with
      | [] => [[x]]
      | r :: rs => (x :: r) :: rs

/-- `String` version of `splitOnChar '\n'`, i.e. `str.split('\n')`. -/
def splitLines (s : String) : List String :=
  (splitOnChar '\n' s.data).map String.mk

/-- Join with a separator (the JavaScript `Array.prototype.join`). -/
def joinWith (sep : String) (l : List String) : String :=
  String.intercalate sep l

/-! ## Expression detection (`value-normalizer.ts`)

`containsExpression` is the test of `/\$\{\{.*?\}\}/`: an occurrence of
the opener `${{` followed, on the same line (`.` does not match line
terminators), by the closer `}}`. -/

/-- Is `close` reachable from the head of `l` without crossing a line
terminator?  Returns the characters up to (excluding) the first `}}`
when it exists. -/
def takeUntilCloser : List Char → Option (List Char × List Char)
  | [] => none
  | '\n' :: _ => none
  | '\r' :: _ => none
  | '}' :: '}' :: rest => some ([], rest)
  | c :: rest =>
    match takeUntilCloser rest with
    | none => none
    | some (inner, rest') => some (c :: inner, rest')

/-- All expression bodies `match[1]` produced by the global regex
`/\$\{\{(.*?)\}\}/g`, in scan order (leftmost, shortest, resuming after
each closer).  The fuel argument only bounds the recursion; a fuel of the
input length always suffices since every step consumes a character. -/
def scanExpressionsAux : Nat → List Char → List (List Char)
  | 0, _ => []
  | _ + 1, [] => []
  | fuel + 1, '$' :: '{' :: '{' :: rest =>
    (match takeUntilCloser rest with
     | some (inner, rest') => inner :: scanExpressionsAux fuel rest'
     | none => scanExpressionsAux fuel rest)
  | fuel + 1, _ :: rest => scanExpressionsAux fuel rest

/-- The expression bodies of the global scan of `/\$\{\{(.*?)\}\}/g`. -/
def scanExpressions (l : List Char) : List (List Char) :=
  scanExpressionsAux l.length l

/-- `containsExpression(value)`, the test of `/\$\{\{.*?\}\}/`. -/
def containsExpression (s : String) : Bool :=
  !(scanExpressions s.data).isEmpty

/-! ### Literal-expression classification (`containsNonLiteralExpression`) -/

/-- Body of a single-quoted expression literal: a sequence of non-quote
characters or doubled quotes `''`, terminated by the closing quote at the
very end (the test of `/^'(?:[^']|'')*'$/`). -/
def singleQuotedBody : List Char → Bool
  | ['\''] => true
  | '\'' :: '\'' :: rest => singleQuotedBody rest
  | '\'' :: _ => false
  | _ :: rest => singleQuotedBody rest
  | [] => false

/-- The test of `/^'(?:[^']|'')*'$/` (single-quoted string literal with
`''` escapes). -/
def isSingleQuoted : List Char → Bool
  | '\'' :: rest => singleQuotedBody rest
  | _ => false

def isDigitChar (c : Char) : Bool := '0' ≤ c && c ≤ '9'

def isHexChar (c : Char) : Bool :=
  isDigitChar c || ('a' ≤ c && c ≤ 'f') || ('A' ≤ c && c ≤ 'F')

def isOctChar (c : Char) : Bool := '0' ≤ c && c ≤ '7'

/-- `digits+` followed by exactly the remainder accepted by `k`. -/
def run1 (p : Char → Bool) (l : List Char) : Option (List Char) :=
  let pre := l.takeWhile p
  if pre.isEmpty then none else some (l.dropWhile p)

/-- Optional exponent part `(?:[eE][+-]?\d+)?` followed by end of input. -/
def exponentEnd : List Char → Bool
  | [] => true
  | e :: rest =>
    (e == 'e' || e == 'E') &&
      (match rest with
       | '+' :: rest' => (run1 isDigitChar rest') == some []
       | '-' :: rest' => (run1 isDigitChar rest') == some []
       | _ => (run1 isDigitChar rest) == some [])

/-- Decimal mantissa `(?:\d+\.?\d*|\.\d+)` followed by the exponent test. -/
def decimalMantissa (l : List Char) : Bool :=
  match run1 isDigitChar l with
  | some rest =>
    (match rest with
     | '.' :: rest' => exponentEnd (rest'.dropWhile isDigitChar)
     | _ => exponentEnd rest)
  | none =>
    match l with
    | '.' :: rest =>
      (match run1 isDigitChar rest with
       | some rest' => exponentEnd rest'
       | none => false)
    | _ => false

/-- The test of
`/^[+-]?(?:0x[0-9a-fA-F]+|0o[0-7]+|(?:\d+\.?\d*|\.\d+)(?:[eE][+-]?\d+)?)$/`. -/
def isNumberLiteral (l : List Char) : Bool :=
  let body : List Char → Bool := fun m =>
    match m with
    | '0' :: 'x' :: rest => (run1 isHexChar rest) == some []
    | '0' :: 'o' :: rest => (run1 isOctChar rest) == some []
    | _ => decimalMantissa m
  match l with
  | '+' :: rest => body rest
  | '-' :: rest => body rest
  | _ => body l

/-- The test of `/^(true|false|null|NaN|Infinity)$/` (case-sensitive). -/
def isKeywordLiteral (l : List Char) : Bool :=
  let s := String.mk l
  s == "true" || s == "false" || s == "null" || s == "NaN" || s == "Infinity"

/-- Is the (trimmed) inner text of one `${{ … }}` placeholder a
compile-time literal? -/
def isLiteralExpression (inner : List Char) : Bool :=
  let e := jsTrimList inner
  isSingleQuoted e || isNumberLiteral e || isKeywordLiteral e

/-- `containsNonLiteralExpression(value)`: some placeholder body is not a
compile-time literal. -/
def containsNonLiteralExpression (s : String) : Bool :=
  (scanExpressions s.data).any (fun inner => !(isLiteralExpression inner))

/-! ### Scalar normalization pipeline (`normalizeValue` helpers) -/

/-- `removeEnclosingQuotes(str)`: strip one layer of matching `"…"` or
`'…'` quotes. -/
def removeEnclosingQuotes (s : String) : String :=
  match s.data with
  | [] => s
  | c :: rest =>
    if (c == '"' || c == '\'') && rest ≠ [] && rest.getLast? == some c then
      String.mk (rest.dropLast)
    else s

/-- One probe of the lazy comment regex `^(.*?)\s+#.*$` at a split point:
the whitespace run starting here must be followed by `#`, and everything
after the `#` must stay on one line (`.*$` cannot cross a newline). -/
def commentHere (l : List Char) : Bool :=
  match l with
  | [] => false
  | c :: _ =>
    isJsWhitespace c &&
      (match l.dropWhile isJsWhitespace with
       | '#' :: rest => !(rest.any (fun d => d == '\n' || d == '\r'))
       | _ => false)

/-- Scan for the lazy split point of `^(.*?)\s+#.*$`: the shortest prefix
(containing no line terminator, as `.` does not match one) whose suffix
starts with whitespace followed by `#` and a single-line tail.  Returns
the prefix when the regex matches. -/
def commentSplit : List Char → Option (List Char)
  | [] => none
  | c :: rest =>
    if commentHere (c :: rest) then some []
    else if c == '\n' || c == '\r' then none
    else
      match commentSplit rest with
      | some pre => some (c :: pre)
      | none => none

/-- `removeTrailingComment(str)`: on a match of `^(.*?)\s+#.*$` keep the
trimmed first group, otherwise return the string unchanged. -/
def removeTrailingComment (s : String) : String :=
  match commentSplit s.data with
  | some pre => jsTrim (String.mk pre)
  | none => s

/-- Leading-whitespace count of one line (`line.match(/^\s*/)`). -/
def lineIndent (l : List Char) : Nat :=
  (l.takeWhile isJsWhitespace).length

/-- Is a line blank (`line.trim().length === 0`)? -/
def isBlankLine (l : List Char) : Bool :=
  (jsTrimList l).isEmpty

/-- `unindent(str)`: remove the minimum common indentation of the
non-blank lines; blank lines become empty; if every line is blank the
string is returned unchanged. -/
def unindent (s : String) : String :=
  let lines := splitOnChar '\n' s.data
  let contentLines := lines.filter (fun l => !(isBlankLine l))
  match contentLines.map lineIndent with
  | [] => s
  | i :: is =>
    let minIndent := is.foldl Nat.min i
    String.mk
      (joinCharLines (lines.map
        (fun l => if isBlankLine l then [] else l.drop minIndent)))
where
  /-- `Array.prototype.join('\n')` on character lists. -/
  joinCharLines : List (List Char) → List Char
    | [] => []
    | [l] => l
    | l :: ls => l ++ '\n' :: joinCharLines ls

/-- `str.replace(/X+/g, ' ')` for a character class `p`: every maximal
run of `p`-characters becomes a single space.  `inRun` remembers whether
the previous character belonged to the current run. -/
def collapseRunsWith (p : Char → Bool) (l : List Char) : List Char :=
  go false l
where
  go : Bool → List Char → List Char
    | _, [] => []
    | inRun, c :: rest =>
      if p c then
        if inRun then go true rest else ' ' :: go true rest
      else c :: go false rest

/-- `str.replace(/\n+/g, ' ')`. -/
def collapseNewlineRuns (l : List Char) : List Char :=
  collapseRunsWith (fun c => c == '\n') l

/-- `str.replace(/\s+/g, ' ')`. -/
def collapseWhitespaceRuns (l : List Char) : List Char :=
  collapseRunsWith isJsWhitespace l

/-- The final re-joining step of `normalizeValue`:
`.replace(/\n+/g, ' ').replace(/\s+/g, ' ').trim()`. -/
def collapseLines (s : String) : String :=
  jsTrim (String.mk (collapseWhitespaceRuns (collapseNewlineRuns s.data)))

/-! ## JavaScript values

The `unknown` values flowing through the validator (parsed YAML scalars,
`with:` entries, nested mappings).  `JsList` and `JsFields` are the
array/object spines, kept as their own inductives so that structural
recursion and induction stay available.  Numbers are modelled as integers
(the example documents the validator consumes carry no fractional
literals as parsed scalars; string-typed digits are untouched). -/

mutual
inductive JsValue where
  | null
  | bool (b : Bool)
  | num (n : Int)
  | str (s : String)
  | arr (items : JsList)
  | obj (fields : JsFields)
  deriving DecidableEq

inductive JsList where
  | nil
  | cons (hd : JsValue) (tl : JsList)
  deriving DecidableEq

inductive JsFields where
  | nil
  | cons (key : String) (val : JsValue) (tl : JsFields)
  deriving DecidableEq
end

mutual
/-- JavaScript `String(value)`. -/
def jsToString : JsValue → String
  | .null => "null"
  | .bool true => "true"
  | .bool false => "false"
  | .num n => toString n
  | .str s => s
  | .arr items => arrToString items
  | .obj _ => "[object Object]"

/-- `Array.prototype.toString` = `join(',')`, where `null` elements
render as the empty string. -/
def arrToString : JsList → String
  | .nil => ""
  | .cons hd tl =>
    let h := match hd with
      | .null => ""
      | v => jsToString v
    match tl with
    | .nil => h
    | t => h ++ "," ++ arrToString t
end

/-- Association-list membership for object fields (JS property access
reads the unique binding; YAML mappings have unique keys). -/
def JsFields.lookup : JsFields → String → Option JsValue
  | .nil, _ => none
  | .cons k v tl, key => if k == key then some v else tl.lookup key

/-- Object fields as a plain list of pairs (`Object.entries`). -/
def JsFields.entries : JsFields → List (String × JsValue)
  | .nil => []
  | .cons k v tl => (k, v) :: tl.entries

/-- Array elements as a plain list. -/
def JsList.elements : JsList → List JsValue
  | .nil => []
  | .cons hd tl => hd :: tl.elements

/-! ## `value-normalizer.ts` public API -/

/-- The string pipeline of `normalizeValue` after the null/undefined
guard: non-literal expression check, trim, quote removal, comment
removal, unindent, newline/whitespace collapse. -/
def normalizeString (str : String) : Option String :=
  if containsNonLiteralExpression str then none
  else
    some (collapseLines (unindent (removeTrailingComment
      (removeEnclosingQuotes (jsTrim str)))))

/-- `normalizeValue(value)`: `null` for null/undefined or non-literal
expressions, otherwise the canonicalized scalar text. -/
def normalizeValue : JsValue → Option String
  | .null => none
  | v => normalizeString (jsToString v)

/-- `normalizeBoolean(value)`. -/
def normalizeBoolean : JsValue → Option Bool
  | .null => none
  | .bool b => some b
  | v =>
    match normalizeValue v with
    | none => none
    | some s =>
      let lower := jsToLower s
      if ["true", "yes", "y", "1", "on"].contains lower then some true
      else if ["false", "no", "n", "0", "off", ""].contains lower then some false
      else none

/-- Does JavaScript `Number(str)` produce a non-`NaN` number?  Implements
the `StringNumericLiteral` grammar: optional whitespace, empty string is
zero, signed decimal (with fraction/exponent) or `Infinity`, unsigned
hex/octal/binary. -/
def jsNumberDefined (s : String) : Bool :=
  let t := jsTrimList s.data
  let decOrInf : List Char → Bool := fun m =>
    String.mk m == "Infinity" || decimalMantissa m
  if t.isEmpty then true
  else
    match t with
    | '+' :: rest => decOrInf rest
    | '-' :: rest => decOrInf rest
    | '0' :: 'x' :: rest => (run1 isHexChar rest) == some []
    | '0' :: 'X' :: rest => (run1 isHexChar rest) == some []
    | '0' :: 'o' :: rest => (run1 isOctChar rest) == some []
    | '0' :: 'O' :: rest => (run1 isOctChar rest) == some []
    | '0' :: 'b' :: rest => (run1 (fun c => c == '0' || c == '1') rest) == some []
    | '0' :: 'B' :: rest => (run1 (fun c => c == '0' || c == '1') rest) == some []
    | m => decOrInf m

/-- `normalizeNumber(value)`: the produced number itself is never read by
the validator, only compared against `null`, so the result is modelled as
`Option Unit`. -/
def normalizeNumber : JsValue → Option Unit
  | .null => none
  | .num _ => some ()
  | v =>
    match normalizeValue v with
    | none => none
    | some s => if jsNumberDefined s then some () else none

/-- A compiled JavaScript `RegExp` as the validator sees it: its source
text and flags (for `toString`, used in diagnostics) plus its matcher
(the external regex engine). -/
structure JsRegExp where
  source : String
  flags : String
  test : String → Bool

/-- JavaScript `String(regexp)` = `/source/flags`. -/
def regexToString (r : JsRegExp) : String :=
  "/" ++ r.source ++ "/" ++ r.flags

/-- `validateMatch(value, pattern)` = `pattern.test(value)`. -/
def validateMatch (value : String) (pattern : JsRegExp) : Bool :=
  pattern.test value

/-- First separator of the alternation matching at the head of `l`
(regex alternation tries the separators in list order).  The escaping in
the source makes each separator a literal, so matching is literal prefix
matching; an empty separator never well-defines a split and is treated
as non-matching. -/
def sepMatchAt (seps : List String) (l : List Char) : Option Nat :=
  match seps with
  | [] => none
  | sep :: rest =>
    if sep.data ≠ [] && sep.data.isPrefixOf l then some sep.data.length
    else sepMatchAt rest l

/-- `str.split(/(sep1|sep2|…)/)` keeping only the even-indexed
(non-separator) chunks. -/
def splitCharsOnSeps (seps : List String) (l : List Char) : List (List Char) :=
  go (l.length + 1) [] l
where
  go : Nat → List Char → List Char → List (List Char)
    | 0, acc, _ => [acc.reverse]
    | _ + 1, acc, [] => [acc.reverse]
    | fuel + 1, acc, c :: rest =>
      match sepMatchAt seps (c :: rest) with
      | some n => acc.reverse :: go fuel [] ((c :: rest).drop n)
      | none => go fuel (c :: acc) rest

/-- `splitMultiValue(value, separators)`. -/
def splitMultiValue (value : JsValue) (separators : List String) :
    Option (List String) :=
  match value with
  | .null => none
  | v =>
    let str0 := jsToString v
    if containsNonLiteralExpression str0 then none
    else
      let str1 := removeEnclosingQuotes (jsTrim str0)
      let hasNewlineSeparator :=
        separators.any (fun sep => sep == "newline" || sep == "\\n")
      if hasNewlineSeparator then
        some ((((splitOnChar '\n' str1.data).map
          (fun line => removeTrailingComment (jsTrim (String.mk line)))).filter
            (fun line => line.length > 0)))
      else
        some ((((splitCharsOnSeps separators str1.data).map
          (fun item => removeTrailingComment (jsTrim (String.mk item)))).filter
            (fun item => item.length > 0)))

/-! ## Validator data model (`index.ts`, `action-schema.ts`) -/

/-- First-match association-list lookup (JavaScript `Map.get`; maps built
by the loader have unique keys). -/
def lookupAssoc {α : Type} (l : List (String × α)) (k : String) : Option α :=
  (l.find? (fun kv => kv.1 == k)).map (fun kv => kv.2)

/-- JavaScript `x || d` on an optionally-present number (`0` is falsy). -/
def jsOrNat (o : Option Nat) (d : Nat) : Nat :=
  match o with
  | some n => if n == 0 then d else n
  | none => d

/-- The `{ type?, options?, match? }` scalar constraint record: the shape
of `items` entries and the part of an input schema the single-value
validator reads.  The `match` field is called `matchPattern` because
`match` is reserved in Lean. -/
structure ScalarTypeSchema where
  type : Option String
  options : Option (List String)
  matchPattern : Option JsRegExp

/-- One entry of `ActionSchema.inputs` (see `action-schema.ts`). -/
structure InputSchema where
  required : Bool
  type : Option String
  options : Option (List String)
  matchPattern : Option JsRegExp
  separators : Option (List String)
  items : Option ScalarTypeSchema

/-- `ActionSchema` of `index.ts` (latest shape, with `alternativeNames`
and `descriptions`); `inputs` is the insertion-ordered map, `outputs`
the insertion-ordered set. -/
structure ActionSchema where
  actionReference : String
  alternativeNames : List String
  inputs : List (String × InputSchema)
  outputs : List String
  sourceFile : String
  descriptions : List String

/-- `ReferencedStep` of `validator.ts`; the `with` field is called
`withMap` because `with` is reserved in Lean. -/
structure ReferencedStep where
  actionReference : String
  uses : String
  withMap : Option (List (String × JsValue))
  withLines : Option (List (String × Nat))
  id : Option String
  lineInBlock : Nat
  deriving DecidableEq

/-- `ValidationError` of `validator.ts`. -/
structure ValidationError where
  message : String
  line : Nat
  column : Nat
  deriving DecidableEq, Repr

/-! ## `validator.ts`: input validation -/

/-- `validateSingleValueInput(inputName, inputValue, inputSchema, uses, line)`. -/
def validateSingleValueInput (inputName : String) (inputValue : JsValue)
    (inputSchema : ScalarTypeSchema) (uses : String) (line : Nat) :
    List ValidationError :=
  match normalizeValue inputValue with
  | none => []
  | some normalizedValue =>
    if containsExpression (jsToString inputValue) then []
    else
      match inputSchema.type with
      | some t =>
        if t == "any" then []
        else if t == "boolean" then
          match normalizeBoolean inputValue with
          | none =>
            [⟨"Input '" ++ inputName ++ "' for action '" ++ uses ++
                "' expects a boolean value, but got '" ++ normalizedValue ++ "'",
              line, 1⟩]
          | some _ => []
        else if t == "number" then
          match normalizeNumber inputValue with
          | none =>
            [⟨"Input '" ++ inputName ++ "' for action '" ++ uses ++
                "' expects a number value, but got '" ++ normalizedValue ++ "'",
              line, 1⟩]
          | some _ => []
        else if t == "choice" || t == "string" then
          (match inputSchema.matchPattern with
           | some p =>
             if !(validateMatch normalizedValue p) then
               [⟨"Input '" ++ inputName ++ "' for action '" ++ uses ++
                   "' does not match required pattern: " ++ regexToString p,
                 line, 1⟩]
             else []
           | none => []) ++
          (match inputSchema.options with
           | some options =>
             if options.length > 0 && !(options.contains normalizedValue) then
               [⟨"Input '" ++ inputName ++ "' for action '" ++ uses ++
                   "' expects one of [" ++ joinWith ", " options ++
                   "], but got '" ++ normalizedValue ++ "'",
                 line, 1⟩]
             else []
           | none => [])
        else []
      | none =>
        match inputSchema.options with
        | some options =>
          if options.length > 0 && !(options.contains normalizedValue) then
            [⟨"Input '" ++ inputName ++ "' for action '" ++ uses ++
                "' expects one of [" ++ joinWith ", " options ++
                "], but got '" ++ normalizedValue ++ "'",
              line, 1⟩]
          else []
        | none => []

/-- The `{ separators, items }` record passed to the multi-value path. -/
structure MultiValueSchema where
  separators : List String
  items : ScalarTypeSchema

/-- Per-item check of `validateMultiValueInput` (`i` is the zero-based
loop index). -/
def validateMultiValueItem (inputName : String) (uses : String) (line : Nat)
    (itemSchema : ScalarTypeSchema) (i : Nat) (item : String) :
    List ValidationError :=
  match itemSchema.type with
  | some t =>
    if t == "any" then []
    else if t == "boolean" then
      match normalizeBoolean (.str item) with
      | none =>
        [⟨"Input '" ++ inputName ++ "' for action '" ++ uses ++
            "' expects boolean values, but item " ++ toString (i + 1) ++
            " is '" ++ item ++ "'", line, 1⟩]
      | some _ => []
    else if t == "number" then
      match normalizeNumber (.str item) with
      | none =>
        [⟨"Input '" ++ inputName ++ "' for action '" ++ uses ++
            "' expects number values, but item " ++ toString (i + 1) ++
            " is '" ++ item ++ "'", line, 1⟩]
      | some _ => []
    else if t == "choice" || t == "string" then
      match normalizeValue (.str item) with
      | none => []
      | some normalizedItem =>
        (match itemSchema.matchPattern with
         | some p =>
           if !(validateMatch normalizedItem p) then
             [⟨"Input '" ++ inputName ++ "' for action '" ++ uses ++
                 "': item " ++ toString (i + 1) ++ " ('" ++ normalizedItem ++
                 "') does not match required pattern: " ++ regexToString p,
               line, 1⟩]
           else []
         | none => []) ++
        (match itemSchema.options with
         | some options =>
           if options.length > 0 && !(options.contains normalizedItem) then
             [⟨"Input '" ++ inputName ++ "' for action '" ++ uses ++
                 "': item " ++ toString (i + 1) ++ " ('" ++ normalizedItem ++
                 "') expects one of [" ++ joinWith ", " options ++ "]",
               line, 1⟩]
           else []
         | none => [])
    else []
  | none => []

/-- `validateMultiValueInput(inputName, inputValue, inputSchema, uses, line)`. -/
def validateMultiValueInput (inputName : String) (inputValue : JsValue)
    (inputSchema : MultiValueSchema) (uses : String) (line : Nat) :
    List ValidationError :=
  match splitMultiValue inputValue inputSchema.separators with
  | none => []
  | some items =>
    items.enum.flatMap (fun p =>
      validateMultiValueItem inputName uses line inputSchema.items p.1 p.2)

/-- The body of the `for (const [inputName, inputValue] of
Object.entries(step.with))` loop of `validateStep`. -/
def validateWithEntry (step : ReferencedStep) (schema : ActionSchema)
    (blockStartLine : Nat) (entry : String × JsValue) : List ValidationError :=
  let inputName := entry.1
  let inputValue := entry.2
  let line :=
    jsOrNat (step.withLines.bind (fun m => lookupAssoc m inputName))
      (blockStartLine + step.lineInBlock)
  match lookupAssoc schema.inputs inputName with
  | none =>
    [⟨"Unknown input '" ++ inputName ++ "' for action '" ++ step.uses ++
        "' (schema: " ++ schema.sourceFile ++ ")", line, 1⟩]
  | some inputSchema =>
    match inputSchema.items, inputSchema.separators with
    | some items, some separators =>
      validateMultiValueInput inputName inputValue ⟨separators, items⟩
        step.uses line
    | _, _ =>
      validateSingleValueInput inputName inputValue
        ⟨inputSchema.type, inputSchema.options, inputSchema.matchPattern⟩
        step.uses line

/-- `validateStep(step, schema, blockStartLine)`. -/
def validateStep (step : ReferencedStep) (schema : ActionSchema)
    (blockStartLine : Nat) : List ValidationError :=
  match step.withMap with
  | none => []
  | some entries => entries.flatMap (validateWithEntry step schema blockStartLine)

/-! ## `validator.ts`: output-reference validation -/

/-- `lineAtOffset(text, offset)`: 1-based line of the character offset. -/
def lineAtOffset (text : String) (offset : Nat) : Nat :=
  1 + ((text.data.take offset).filter (fun c => c == '\n')).length

/-- `[A-Za-z0-9_-]`. -/
def isRefChar (c : Char) : Bool :=
  c.isAlpha || c.isDigit || c == '_' || c == '-'

/-- One match of `steps\.([A-Za-z0-9_-]+)\.outputs\.([A-Za-z0-9_-]+)`. -/
structure OutputRef where
  index : Nat
  stepId : String
  outputName : String
  deriving DecidableEq, Repr

/-- Try the output-reference regex at the head of `l`.  Backtracking
cannot help this pattern (shortening a maximal `[A-Za-z0-9_-]+` run never
exposes a `.`), so greedy runs decide the match. -/
def outputRefHere (l : List Char) : Option (String × String × Nat) :=
  if ("steps.".data).isPrefixOf l then
    let rest1 := l.drop 6
    let idChars := rest1.takeWhile isRefChar
    if idChars.isEmpty then none
    else
      let rest2 := rest1.drop idChars.length
      if (".outputs.".data).isPrefixOf rest2 then
        let rest3 := rest2.drop 9
        let nameChars := rest3.takeWhile isRefChar
        if nameChars.isEmpty then none
        else
          some (String.mk idChars, String.mk nameChars,
            6 + idChars.length + 9 + nameChars.length)
      else none
  else none

/-- The exec loop of the global regex: leftmost matches, resuming after
each match end.  Fuel bounds recursion; the input length suffices. -/
def scanOutputRefsAux : Nat → Nat → List Char → List OutputRef
  | 0, _, _ => []
  | _ + 1, _, [] => []
  | fuel + 1, i, c :: rest =>
    match outputRefHere (c :: rest) with
    | some (sid, name, len) =>
      ⟨i, sid, name⟩ :: scanOutputRefsAux fuel (i + len) ((c :: rest).drop len)
    | none => scanOutputRefsAux fuel (i + 1) rest

/-- All matches of `/steps\.([A-Za-z0-9_-]+)\.outputs\.([A-Za-z0-9_-]+)/g`. -/
def scanOutputRefs (text : String) : List OutputRef :=
  scanOutputRefsAux text.data.length 0 text.data

/-- JavaScript `Map.set`: replace an existing binding in place, else
append. -/
def assocSet {α : Type} (l : List (String × α)) (k : String) (v : α) :
    List (String × α) :=
  if l.any (fun kv => kv.1 == k) then
    l.map (fun kv => if kv.1 == k then (k, v) else kv)
  else l ++ [(k, v)]

/-- The `stepOutputs` map of `validateOutputReferences`: step id → the
declared outputs of its schema (steps without an id or without a
registered schema contribute nothing; later steps overwrite earlier
ones). -/
def buildStepOutputs (steps : List ReferencedStep)
    (schemas : List (String × ActionSchema)) : List (String × List String) :=
  steps.foldl
    (fun acc step =>
      match step.id with
      | some sid =>
        (match lookupAssoc schemas step.actionReference with
         | some schema => assocSet acc sid schema.outputs
         | none => acc)
      | none => acc)
    []

/-- `validateOutputReferences(blockText, steps, schemas, blockStartLine)`. -/
def validateOutputReferences (blockText : String)
    (steps : List ReferencedStep) (schemas : List (String × ActionSchema))
    (blockStartLine : Nat) : List ValidationError :=
  let stepOutputs := buildStepOutputs steps schemas
  (scanOutputRefs blockText).foldl
    (fun errors m =>
      match lookupAssoc stepOutputs m.stepId with
      | none => errors
      | some outputs =>
        if outputs.contains m.outputName then errors
        else
          errors ++
            [⟨"Unknown output '" ++ m.outputName ++ "' for step '" ++
                m.stepId ++ "'. Available outputs: " ++
                (if outputs.length > 0 then joinWith ", " outputs else "none"),
              blockStartLine + lineAtOffset blockText m.index - 1, 1⟩])
    []

/-! ## `validator.ts`: strict-parse step discovery -/

/-- `unquote(value)` of `validator.ts`. -/
def unquote (value : String) : String :=
  let trimmed := jsTrim value
  match trimmed.data with
  | [] => trimmed
  | c :: rest =>
    if (c == '"' || c == '\'') && rest ≠ [] && rest.getLast? == some c then
      String.mk rest.dropLast
    else trimmed

/-- The test of `new RegExp('^' + escapedRef + '@.+$', 'i')`: the
identifier case-insensitively, then `@`, then at least one character with
no line terminator up to the end. -/
def actionRefMatches (actionRef : String) (trimmed : String) : Bool :=
  let pre := (jsToLower actionRef).data ++ ['@']
  let lt := (jsToLower trimmed).data
  pre.isPrefixOf lt &&
    (let rest := lt.drop pre.length
     !rest.isEmpty && rest.all (fun c => c ≠ '\n' && c ≠ '\r'))

/-- `extractActionReference(usesValue, schemas)`: the first registered
identifier whose `^ref@version$` pattern accepts the unquoted value. -/
def extractActionReference (usesValue : String)
    (schemas : List (String × ActionSchema)) : Option String :=
  let trimmed := unquote usesValue
  (schemas.find? (fun kv => actionRefMatches kv.1 trimmed)).map (fun kv => kv.1)

/-- `obj.with && typeof obj.with === 'object'`: mappings keep their
entries, sequences are exposed through their index keys (JavaScript
`Object.entries` on an array), anything else is `undefined`. -/
def getWithMap (fields : JsFields) : Option (List (String × JsValue)) :=
  match fields.lookup "with" with
  | some (.obj fs) => some fs.entries
  | some (.arr xs) =>
    some (xs.elements.enum.map (fun p => (toString p.1, p.2)))
  | _ => none

/-- `typeof obj.id === 'string' ? obj.id : undefined`. -/
def getId (fields : JsFields) : Option String :=
  match fields.lookup "id" with
  | some (.str s) => some s
  | _ => none

/-! ## `schema-loader.ts`: the type resolver -/

/-- One entry of a raw `options` list: a plain string or a
`{ value, description?, alternatives? }` object (alternatives already
normalized to a string list by `validateTypeDefinition`). -/
inductive ChoiceOptionSource where
  | plain (value : String)
  | detailed (value : String) (description : Option String)
      (alternatives : Option (List String))
  deriving DecidableEq, Repr

/-- Raw `TypeDefinition`: `type` may name a base kind or a custom type;
`separators` is a bare string or a list; `items` nests another
definition.  The `match` field is called `matchSrc` (`match` is reserved
in Lean). -/
inductive TypeDefinition where
  | mk (type : String) (matchSrc : Option String)
      (options : Option (List ChoiceOptionSource))
      (separators : Option (String ⊕ List String))
      (items : Option TypeDefinition)

def TypeDefinition.type : TypeDefinition → String
  | .mk t _ _ _ _ => t

def TypeDefinition.matchSrc : TypeDefinition → Option String
  | .mk _ m _ _ _ => m

def TypeDefinition.options : TypeDefinition → Option (List ChoiceOptionSource)
  | .mk _ _ o _ _ => o

def TypeDefinition.separators : TypeDefinition → Option (String ⊕ List String)
  | .mk _ _ _ s _ => s

def TypeDefinition.items : TypeDefinition → Option TypeDefinition
  | .mk _ _ _ _ i => i

/-- The five base kinds (`BASE_TYPES`). -/
inductive BaseType where
  | boolean
  | number
  | string
  | choice
  | any
  deriving DecidableEq, Repr

/-- `BASE_TYPES.includes(type)`. -/
def isBaseType (t : String) : Bool :=
  ["boolean", "number", "string", "choice", "any"].contains t

/-- Read a base-kind name (callers guard with `isBaseType`). -/
def parseBaseType : String → BaseType
  | "boolean" => .boolean
  | "number" => .number
  | "string" => .string
  | "choice" => .choice
  | _ => .any

/-- A compiled `RegExp` as produced by `compileRegex`: its source and
flags.  Its matching behaviour lives in the external regex engine and is
not needed by the resolution claims. -/
structure CompiledRegex where
  source : String
  flags : String
  deriving DecidableEq, Repr

def isRegexFlagChar (c : Char) : Bool :=
  c == 'g' || c == 'i' || c == 'm' || c == 's' || c == 'u' || c == 'v' || c == 'y'

/-- `compileRegex(pattern)`: recognize `/body/flags` notation (the test
of `/^\/(.+)\/([gimsuvy]*)$/`, greedy body, `.` not crossing line
terminators), otherwise compile the pattern text itself with no flags. -/
def compileRegex (pattern : String) : CompiledRegex :=
  match pattern.data with
  | '/' :: rest =>
    let rev := rest.reverse
    let flagsRev := rev.takeWhile isRegexFlagChar
    (match rev.drop flagsRev.length with
     | '/' :: innerRev =>
       if innerRev ≠ [] &&
           innerRev.all (fun c => c ≠ '\n' && c ≠ '\r') then
         ⟨String.mk innerRev.reverse, String.mk flagsRev.reverse⟩
       else ⟨pattern, ""⟩
     | _ => ⟨pattern, ""⟩)
  | _ => ⟨pattern, ""⟩

/-- Resolved type descriptor (`ResolvedTypeDefinition`). -/
inductive ResolvedTypeDefinition where
  | mk (type : BaseType) (matchc : Option CompiledRegex)
      (options : Option (List String)) (separators : Option (List String))
      (items : Option ResolvedTypeDefinition)

def ResolvedTypeDefinition.type : ResolvedTypeDefinition → BaseType
  | .mk t _ _ _ _ => t

def ResolvedTypeDefinition.matchc : ResolvedTypeDefinition → Option CompiledRegex
  | .mk _ m _ _ _ => m

def ResolvedTypeDefinition.options : ResolvedTypeDefinition → Option (List String)
  | .mk _ _ o _ _ => o

def ResolvedTypeDefinition.separators : ResolvedTypeDefinition → Option (List String)
  | .mk _ _ _ s _ => s

def ResolvedTypeDefinition.items : ResolvedTypeDefinition → Option ResolvedTypeDefinition
  | .mk _ _ _ _ i => i

/-- The option-flattening loop of `resolveTypeDefinition`: each plain
option contributes its value; each object option contributes its
canonical value immediately followed by its alternatives. -/
def flattenChoiceOptions (options : List ChoiceOptionSource) : List String :=
  options.foldl
    (fun acc opt =>
      match opt with
      | .plain s => acc ++ [s]
      | .detailed v _ alts =>
        acc ++ [v] ++ (match alts with | some l => l | none => []))
    []

/-- `resolveTypeDefinition(def, customTypes)`.  The JavaScript original
recurses unboundedly (cycle safety is left to the caller); the fuel
argument makes that recursion well-founded, with exhaustion reported as
an error like any other failed resolution. -/
def resolveTypeDefinition (fuel : Nat) (d : String ⊕ TypeDefinition)
    (customTypes : List (String × TypeDefinition)) :
    Except String ResolvedTypeDefinition :=
  match fuel with
  | 0 => .error "Maximum type resolution depth exceeded"
  | fuel + 1 => do
    let (baseTypeDef, overrides) ←
      (match d with
       | .inl name =>
         (match lookupAssoc customTypes name with
          | none =>
            Except.error ("Unknown custom type: " ++ name)
          | some customType =>
            Except.ok (customType,
              ((none : Option String), (none : Option (List ChoiceOptionSource)),
               (none : Option (String ⊕ List String)), (none : Option TypeDefinition))))
       | .inr defn =>
         if isBaseType defn.type then
           Except.ok (defn, (none, none, none, none))
         else
           (match lookupAssoc customTypes defn.type with
            | none =>
              Except.error ("Unknown custom type: " ++ defn.type)
            | some customType =>
              Except.ok (customType,
                (defn.matchSrc, defn.options, defn.separators, defn.items))))
    let (oMatch, oOptions, oSeparators, oItems) := overrides
    let resolvedBase ←
      if isBaseType baseTypeDef.type then
        Except.ok (ResolvedTypeDefinition.mk (parseBaseType baseTypeDef.type)
          none none none none)
      else
        resolveTypeDefinition fuel (.inl baseTypeDef.type) customTypes
    -- apply the base definition's own fields (JavaScript truthiness:
    -- an empty `match` string or empty `separators` string is skipped,
    -- arrays and objects are always applied)
    let m1 :=
      match baseTypeDef.matchSrc with
      | some s => if s ≠ "" then some (compileRegex s) else resolvedBase.matchc
      | none => resolvedBase.matchc
    let o1 :=
      match baseTypeDef.options with
      | some opts => some (flattenChoiceOptions opts)
      | none => resolvedBase.options
    let s1 :=
      match baseTypeDef.separators with
      | some (.inl s) => if s ≠ "" then some [s] else resolvedBase.separators
      | some (.inr l) => some l
      | none => resolvedBase.separators
    let i1 ←
      (match baseTypeDef.items with
       | some it => do
         let r ← resolveTypeDefinition fuel (.inr it) customTypes
         pure (some r)
       | none => pure resolvedBase.items)
    -- apply the overrides (checked against `undefined`, not truthiness)
    let m2 :=
      match oMatch with
      | some s => some (compileRegex s)
      | none => m1
    let o2 :=
      match oOptions with
      | some opts => some (flattenChoiceOptions opts)
      | none => o1
    let s2 :=
      match oSeparators with
      | some (.inl s) => some [s]
      | some (.inr l) => some l
      | none => s1
    let i2 ←
      (match oItems with
       | some it => do
         let r ← resolveTypeDefinition fuel (.inr it) customTypes
         pure (some r)
       | none => pure i1)
    pure (ResolvedTypeDefinition.mk resolvedBase.type m2 o2 s2 i2)

mutual
/-- `findReferencedStepsInObject(node, schemas, found)`: walk the parsed
YAML tree; every mapping with a registered `uses` string is recorded with
`lineInBlock = 1` and no `withLines` (strict mode has no precise line
info), then all child values are searched as well. -/
def findReferencedStepsInObject (node : JsValue)
    (schemas : List (String × ActionSchema)) (found : List ReferencedStep) :
    List ReferencedStep :=
  match node with
  | .arr items => findStepsInList items schemas found
  | .obj fields =>
    let found1 :=
      match fields.lookup "uses" with
      | some (.str u) =>
        (match extractActionReference u schemas with
         | some ar =>
           found ++ [⟨ar, u, getWithMap fields, none, getId fields, 1⟩]
         | none => found)
      | _ => found
    findStepsInFields fields schemas found1
  | _ => found

/-- Sequence case of the walk. -/
def findStepsInList (items : JsList)
    (schemas : List (String × ActionSchema)) (found : List ReferencedStep) :
    List ReferencedStep :=
  match items with
  | .nil => found
  | .cons hd tl =>
    findStepsInList tl schemas (findReferencedStepsInObject hd schemas found)

/-- `Object.values` recursion of the walk. -/
def findStepsInFields (fields : JsFields)
    (schemas : List (String × ActionSchema)) (found : List ReferencedStep) :
    List ReferencedStep :=
  match fields with
  | .nil => found
  | .cons _ v tl =>
    findStepsInFields tl schemas (findReferencedStepsInObject v schemas found)
end

/-! ## Concrete fixtures for the specification scenarios -/

/-- Executable matcher of the semver-like pattern of Scenario C,
`^(v?\d+(\.\d+)?(\.\d+)?|v?\d+\.\*|v?\d+\.\d+\.\*|latest)$`, after the
optional leading `v`: one to three dot-separated digit groups, or one or
two digit groups followed by `.*`. -/
def semverCore (m : List Char) : Bool :=
  match run1 isDigitChar m with
  | none => false
  | some r1 =>
    match r1 with
    | [] => true
    | '.' :: r2 =>
      (match r2 with
       | ['*'] => true
       | _ =>
         match run1 isDigitChar r2 with
         | none => false
         | some r3 =>
           match r3 with
           | [] => true
           | '.' :: r4 =>
             (match r4 with
              | ['*'] => true
              | _ => (run1 isDigitChar r4) == some [])
           | _ => false)
    | _ => false

/-- The whole semver-like pattern of Scenario C. -/
def semverLikeTest (s : String) : Bool :=
  s == "latest" ||
    (match s.data with
     | 'v' :: rest => semverCore rest
     | l => semverCore l)

/-- The compiled `match` regex of Scenario C. -/
def semverPattern : JsRegExp :=
  ⟨"^(v?\\d+(\\.\\d+)?(\\.\\d+)?|v?\\d+\\.\\*|v?\\d+\\.\\d+\\.\\*|latest)$",
   "", semverLikeTest⟩

/-- The `ignore-versions` input as `loadActionSchema` builds it from the
Scenario C sidecar schema (`type: string`, `separators: ['newline',',']`,
a semver `match`): `resolveTypeDefinition` only copies an explicit
`items` field, so none is present. -/
def ignoreVersionsInput : InputSchema :=
  ⟨false, some "string", none, some semverPattern, some ["newline", ","], none⟩

/-- The same input with an explicit `items` constraint mirroring the
parent `match`, the shape the multi-value path expects. -/
def ignoreVersionsInputItems : InputSchema :=
  ⟨false, some "string", none, some semverPattern, some ["newline", ","],
   some ⟨some "string", none, some semverPattern⟩⟩

/-- Scenario C action schema (no explicit `items`). -/
def semverCheckerSchema : ActionSchema :=
  ⟨"jessehouwing/actions-semver-checker", [],
   [("ignore-versions", ignoreVersionsInput)], [], "action.yml", []⟩

/-- Scenario C action schema with the explicit `items` constraint. -/
def semverCheckerSchemaItems : ActionSchema :=
  ⟨"jessehouwing/actions-semver-checker", [],
   [("ignore-versions", ignoreVersionsInputItems)], [], "action.yml", []⟩

/-- The step the strict parser extracts from the Scenario C example
`ignore-versions: 'v1,v1.0,latest'`. -/
def ignoreVersionsStep : ReferencedStep :=
  ⟨"jessehouwing/actions-semver-checker",
   "jessehouwing/actions-semver-checker@v1",
   some [("ignore-versions", .str "v1,v1.0,latest")], none, none, 1⟩

/-- The environment choice of Scenarios A and D as the single-value
validator receives it. -/
def environmentChoice : ScalarTypeSchema :=
  ⟨some "choice", some ["development", "staging", "production"], none⟩

/-- `required`-mapping transformer used to express that `validateStep`
never reads `required`. -/
def setRequired (f : String → Bool → Bool) (schema : ActionSchema) :
    ActionSchema :=
  { schema with
    inputs := schema.inputs.map
      (fun kv => (kv.1, { kv.2 with required := f kv.1 kv.2.required })) }

/-- A registry schema used by the strict-parse witnesses: one known input
`good`, no outputs. -/
def walkSchema : ActionSchema :=
  ⟨"o/r", [], [("good", ⟨false, some "string", none, none, none, none⟩)], [],
   "action.yml", []⟩

/-- A parsed YAML block with one step using an unknown input. -/
def walkYaml : JsValue :=
  .arr (.cons
    (.obj (.cons "uses" (.str "o/r@v1")
      (.cons "with" (.obj (.cons "bad-input" (.str "x") .nil)) .nil)))
    .nil)

/-- The step the strict walk records from `walkYaml`. -/
def walkStep : ReferencedStep :=
  ⟨"o/r", "o/r@v1", some [("bad-input", .str "x")], none, none, 1⟩

/-- A step with `id: build` whose schema declares the single output
`result` (Scenario E). -/
def buildStep : ReferencedStep := ⟨"o/r", "o/r@v1", none, none, some "build", 1⟩

/-- Scenario E schema. -/
def buildSchema : ActionSchema := ⟨"o/r", [], [], ["result"], "action.yml", []⟩

/-! ## Helper lemmas -/

/-- A left fold whose step appends a per-element block is the flat-map of
those blocks. -/
theorem foldl_append_flatMap {α β : Type} (g : α → List β)
    (step : List β → α → List β) (hstep : ∀ acc a, step acc a = acc ++ g a)
    (l : List α) (acc : List β) :
    l.foldl step acc = acc ++ l.flatMap g := by
  induction l generalizing acc with
  | nil => simp
  | cons hd tl ih => simp [List.foldl_cons, hstep, ih]

/-- Every diagnostic of the single-value path carries the `line` passed
in and column 1. -/
theorem mem_validateSingleValueInput {n : String} {v : JsValue}
    {s : ScalarTypeSchema} {u : String} {l : Nat} {e : ValidationError}
    (he : e ∈ validateSingleValueInput n v s u l) :
    e.line = l ∧ e.column = 1 := by
  unfold validateSingleValueInput at he
  repeat' split at he
  all_goals
    simp only [List.mem_append, List.mem_singleton, List.not_mem_nil,
      or_false, false_or] at he
  all_goals
    first
      | exact he.elim
      | (subst he; exact ⟨rfl, rfl⟩)
      | (rcases he with rfl | rfl <;> exact ⟨rfl, rfl⟩)

/-- Every diagnostic of one multi-value item check carries the `line`
passed in and column 1. -/
theorem mem_validateMultiValueItem {n u : String} {l : Nat}
    {s : ScalarTypeSchema} {i : Nat} {item : String} {e : ValidationError}
    (he : e ∈ validateMultiValueItem n u l s i item) :
    e.line = l ∧ e.column = 1 := by
  unfold validateMultiValueItem at he
  repeat' split at he
  all_goals
    simp only [List.mem_append, List.mem_singleton, List.not_mem_nil,
      or_false, false_or] at he
  all_goals
    first
      | exact he.elim
      | (subst he; exact ⟨rfl, rfl⟩)
      | (rcases he with rfl | rfl <;> exact ⟨rfl, rfl⟩)

/-- Every diagnostic of the multi-value path carries the `line` passed in
and column 1. -/
theorem mem_validateMultiValueInput {n : String} {v : JsValue}
    {s : MultiValueSchema} {u : String} {l : Nat} {e : ValidationError}
    (he : e ∈ validateMultiValueInput n v s u l) :
    e.line = l ∧ e.column = 1 := by
  unfold validateMultiValueInput at he
  split at he
  · simp at he
  · simp only [List.mem_flatMap] at he
    obtain ⟨p, _, hp⟩ := he
    exact mem_validateMultiValueItem hp

/-- Every diagnostic of one `with`-entry check carries the computed entry
line and column 1. -/
theorem mem_validateWithEntry {step : ReferencedStep} {schema : ActionSchema}
    {bsl : Nat} {entry : String × JsValue} {e : ValidationError}
    (he : e ∈ validateWithEntry step schema bsl entry) :
    e.line = jsOrNat (step.withLines.bind (fun m => lookupAssoc m entry.1))
        (bsl + step.lineInBlock) ∧
      e.column = 1 := by
  unfold validateWithEntry at he
  simp only [] at he
  split at he
  · simp_all
  · split at he
    · exact mem_validateMultiValueInput he
    · exact mem_validateSingleValueInput he

/-- Every diagnostic of `validateStep` has column 1, and when the step
has no recorded `withLines` its line is `blockStartLine + lineInBlock`. -/
theorem mem_validateStep {step : ReferencedStep} {schema : ActionSchema}
    {bsl : Nat} {e : ValidationError}
    (he : e ∈ validateStep step schema bsl) :
    e.column = 1 ∧
      (step.withLines = none → e.line = bsl + step.lineInBlock) := by
  unfold validateStep at he
  split at he
  · simp at he
  · simp only [List.mem_flatMap] at he
    obtain ⟨entry, _, hentry⟩ := he
    have h := mem_validateWithEntry hentry
    refine ⟨h.2, fun hnone => ?_⟩
    rw [h.1, hnone]
    rfl

/-- A left fold whose step conditionally appends one element is the
filter-map of the per-element decisions. -/
theorem foldl_push_filterMap {α β : Type} (f : α → Option β)
    (step : List β → α → List β)
    (hstep : ∀ acc a, step acc a =
      match f a with
      | none => acc
      | some b => acc ++ [b])
    (l : List α) (acc : List β) :
    l.foldl step acc = acc ++ l.filterMap f := by
  induction l generalizing acc with
  | nil => simp
  | cons hd tl ih =>
    rw [List.foldl_cons, hstep, ih]
    cases h : f hd <;> simp [List.filterMap_cons, h]

/-- Association lookup through a key-preserving value map. -/
theorem lookupAssoc_map_upd {α β : Type} (u : String → α → β)
    (l : List (String × α)) (k : String) :
    lookupAssoc (l.map (fun kv => (kv.1, u kv.1 kv.2))) k =
      (lookupAssoc l k).map (u k) := by
  induction l with
  | nil => rfl
  | cons kv tl ih =>
    obtain ⟨k', v⟩ := kv
    by_cases h : (k' == k) = true
    · have : k' = k := by simpa using h
      subst this
      simp [lookupAssoc, List.find?]
    · have hf : (k' == k) = false := by simpa using h
      simp only [lookupAssoc, List.map_cons, List.find?, hf] at *
      exact ih

/-- The functional characterization of `validateOutputReferences`:
exactly the scanned occurrences with a known step id and an undeclared
output name produce a diagnostic, with the prescribed message, line and
column. -/
theorem validateOutputReferences_eq (blockText : String)
    (steps : List ReferencedStep) (schemas : List (String × ActionSchema))
    (blockStartLine : Nat) :
    validateOutputReferences blockText steps schemas blockStartLine =
      (scanOutputRefs blockText).filterMap (fun m =>
        match lookupAssoc (buildStepOutputs steps schemas) m.stepId with
        | none => none
        | some outputs =>
          if outputs.contains m.outputName then none
          else
            some ⟨"Unknown output '" ++ m.outputName ++ "' for step '" ++
                m.stepId ++ "'. Available outputs: " ++
                (if outputs.length > 0 then joinWith ", " outputs else "none"),
              blockStartLine + lineAtOffset blockText m.index - 1, 1⟩) := by
  unfold validateOutputReferences
  rw [foldl_push_filterMap
    (fun m =>
      match lookupAssoc (buildStepOutputs steps schemas) m.stepId with
      | none => none
      | some outputs =>
        if outputs.contains m.outputName then none
        else
          some ⟨"Unknown output '" ++ m.outputName ++ "' for step '" ++
              m.stepId ++ "'. Available outputs: " ++
              (if outputs.length > 0 then joinWith ", " outputs else "none"),
            blockStartLine + lineAtOffset blockText m.index - 1, 1⟩)]
  · simp
  · intro acc m
    cases h : lookupAssoc (buildStepOutputs steps schemas) m.stepId with
    | none => simp only [h]
    | some outputs =>
      simp only [h]
      cases hc : outputs.contains m.outputName <;> simp

/-- Every diagnostic of `validateOutputReferences` has column 1. -/
theorem mem_validateOutputReferences_column {bt : String}
    {steps : List ReferencedStep} {reg : List (String × ActionSchema)}
    {bsl : Nat} {e : ValidationError}
    (he : e ∈ validateOutputReferences bt steps reg bsl) : e.column = 1 := by
  rw [validateOutputReferences_eq] at he
  simp only [List.mem_filterMap] at he
  obtain ⟨m, _, hm⟩ := he
  split at hm
  · exact absurd hm (by simp)
  · split at hm
    · exact absurd hm (by simp)
    · cases hm
      rfl

mutual
/-- Every step the strict walk adds to the accumulator is recorded with
`lineInBlock = 1` and no `withLines`. -/
theorem mem_findReferencedStepsInObject (node : JsValue)
    (schemas : List (String × ActionSchema)) (found : List ReferencedStep)
    (s : ReferencedStep)
    (h : s ∈ findReferencedStepsInObject node schemas found) :
    s ∈ found ∨ (s.lineInBlock = 1 ∧ s.withLines = none) := by
  cases node with
  | arr items =>
    exact mem_findStepsInList items schemas found s
      (by simpa [findReferencedStepsInObject] using h)
  | obj fields =>
    rw [findReferencedStepsInObject] at h
    rcases mem_findStepsInFields fields schemas _ s h with h' | hP
    · rcases hu : fields.lookup "uses" with _ | u
      · rw [hu] at h'
        exact .inl h'
      · cases u with
        | str ustr =>
          rw [hu] at h'
          dsimp only at h'
          rcases ha : extractActionReference ustr schemas with _ | ar
          · rw [ha] at h'
            exact .inl h'
          · rw [ha] at h'
            rcases List.mem_append.mp h' with h'' | h''
            · exact .inl h''
            · have hs : s = ⟨ar, ustr, getWithMap fields, none, getId fields, 1⟩ := by
                simpa using h''
              subst hs
              exact .inr ⟨rfl, rfl⟩
        | null => rw [hu] at h'; exact .inl h'
        | bool b => rw [hu] at h'; exact .inl h'
        | num n => rw [hu] at h'; exact .inl h'
        | arr items => rw [hu] at h'; exact .inl h'
        | obj fs => rw [hu] at h'; exact .inl h'
    · exact .inr hP
  | null => exact .inl h
  | bool b => exact .inl h
  | num n => exact .inl h
  | str sv => exact .inl h

/-- Sequence case of `mem_findReferencedStepsInObject`. -/
theorem mem_findStepsInList (items : JsList)
    (schemas : List (String × ActionSchema)) (found : List ReferencedStep)
    (s : ReferencedStep) (h : s ∈ findStepsInList items schemas found) :
    s ∈ found ∨ (s.lineInBlock = 1 ∧ s.withLines = none) := by
  cases items with
  | nil => rw [findStepsInList] at h; exact .inl h
  | cons hd tl =>
    rw [findStepsInList] at h
    rcases mem_findStepsInList tl schemas _ s h with h' | hP
    · exact mem_findReferencedStepsInObject hd schemas found s h'
    · exact .inr hP

/-- Mapping case of `mem_findReferencedStepsInObject`. -/
theorem mem_findStepsInFields (fields : JsFields)
    (schemas : List (String × ActionSchema)) (found : List ReferencedStep)
    (s : ReferencedStep) (h : s ∈ findStepsInFields fields schemas found) :
    s ∈ found ∨ (s.lineInBlock = 1 ∧ s.withLines = none) := by
  cases fields with
  | nil => rw [findStepsInFields] at h; exact .inl h
  | cons k v tl =>
    rw [findStepsInFields] at h
    rcases mem_findStepsInFields tl schemas _ s h with h' | hP
    · exact mem_findReferencedStepsInObject v schemas found s h'
    · exact .inr hP
end

/-! ## The claims -/

/-- **C1** (the claim is the spec's and the test suite's reading; the
code diverges).  With separators `['newline', ',']`, `splitMultiValue`
splits on line breaks only — the remaining literal separators are never
applied — so the Scenario C example `'v1,v1.0,latest'` stays one item.
Consequently `validateStep` emits one pattern-mismatch diagnostic for it
instead of the zero diagnostics the spec (and the repository's own tests)
require, both without an `items` constraint (the loader creates none for
this schema, putting validation on the single-value path) and with one
(multi-value path). -/
theorem c1_splitMultiValue_newline_only :
    splitMultiValue (.str "v1,v1.0,latest") ["newline", ","] =
      some ["v1,v1.0,latest"] ∧
    (validateStep ignoreVersionsStep semverCheckerSchema 1).length = 1 ∧
    (validateStep ignoreVersionsStep semverCheckerSchemaItems 1).length = 1 ∧
    (validateStep
      ⟨"jessehouwing/actions-semver-checker",
       "jessehouwing/actions-semver-checker@v1",
       some [("ignore-versions", JsValue.str "v1.0.0,invalid,v2.0.0")],
       none, none, 1⟩
      semverCheckerSchema 1).length = 1 := by
  refine ⟨by decide, by decide, by decide, by decide⟩

/-- **C2, counterexample.**  The claim predicts that `${{ 'prod' }}`
against the environment choice (whose options do not include `prod`) is
validated as the literal `prod` and fails; the code instead skips every
value containing an expression placeholder and emits no diagnostic. -/
theorem c2_literal_expression_not_validated :
    validateSingleValueInput "environment" (.str "$\x7b\x7b 'prod' \x7d\x7d")
      environmentChoice "owner/app@v1" 5 = [] := by decide

/-- **C2, amended.**  Single-value validation skips every value that
contains an expression placeholder, literal or not, without any
diagnostic; the literal placeholder is never evaluated. -/
theorem c2_expression_values_always_skipped (inputName : String)
    (inputValue : JsValue) (inputSchema : ScalarTypeSchema) (uses : String)
    (line : Nat) (h : containsExpression (jsToString inputValue) = true) :
    validateSingleValueInput inputName inputValue inputSchema uses line = [] := by
  unfold validateSingleValueInput
  cases hnv : normalizeValue inputValue <;> simp [h]

/-- **C2, witness.** -/
theorem c2_expression_values_always_skipped_witness :
    containsExpression (jsToString (JsValue.str "$\x7b\x7b secrets.TOKEN \x7d\x7d")) = true ∧
    validateSingleValueInput "environment" (.str "$\x7b\x7b secrets.TOKEN \x7d\x7d")
      environmentChoice "owner/app@v1" 5 = [] :=
  ⟨by decide,
   c2_expression_values_always_skipped "environment"
     (.str "$\x7b\x7b secrets.TOKEN \x7d\x7d") environmentChoice "owner/app@v1" 5
     (by decide)⟩

/-- **C5, counterexample.**  Normalizing the quoted value with a trailing
comment `'v1' # note` does **not** agree with normalizing `v1`: quote
stripping runs before comment stripping, so the quotes survive. -/
theorem c5_quoted_comment_not_round_trip :
    normalizeValue (.str "'v1' # note") ≠ normalizeValue (.str "v1") := by
  decide

/-- **C5, amended.**  Normalizing `'v1' # note` strips the comment but
keeps the enclosing quotes, returning `'v1'`, while normalizing `v1`
returns `v1`; the two results differ. -/
theorem c5_quoted_comment_normalization :
    normalizeValue (.str "'v1' # note") = some "'v1'" ∧
    normalizeValue (.str "v1") = some "v1" := by
  refine ⟨by decide, by decide⟩

/-- **C6.**  An empty-string value for a string input with a match
pattern is still checked: the validator emits exactly the
pattern-mismatch diagnostic when the pattern rejects the empty string,
and nothing otherwise (nothing else about the input, required or not,
exempts it). -/
theorem c6_empty_string_pattern_checked (p : JsRegExp)
    (inputName uses : String) (line : Nat) :
    validateSingleValueInput inputName (.str "")
        ⟨some "string", none, some p⟩ uses line =
      (if p.test "" then []
       else
         [⟨"Input '" ++ inputName ++ "' for action '" ++ uses ++
             "' does not match required pattern: " ++ regexToString p,
           line, 1⟩]) := by
  have h1 : normalizeValue (JsValue.str "") = some "" := by decide
  have h2 : containsExpression (jsToString (JsValue.str "")) = false := by
    decide
  unfold validateSingleValueInput
  rw [h1]
  simp only [h2, Bool.false_eq_true, if_false]
  cases hp : p.test "" <;>
    simp [validateMatch, hp]

/-- **C7.**  `normalizeBoolean` returns `true` exactly when the
scalar-normalized value is case-insensitively one of
`{true, yes, y, 1, on}`, `false` exactly for `{false, no, n, 0, off}` or
the empty string, and `null` otherwise — including through the boolean
and null fast paths; consequently a boolean input accepts `yes` with zero
diagnostics and rejects `maybe` with exactly one. -/
theorem c7_normalizeBoolean_characterization :
    (∀ v : JsValue,
      normalizeBoolean v =
        match normalizeValue v with
        | none => none
        | some s =>
          if ["true", "yes", "y", "1", "on"].contains (jsToLower s) then
            some true
          else if ["false", "no", "n", "0", "off", ""].contains (jsToLower s)
              then some false
          else none) ∧
    validateSingleValueInput "debug" (.str "yes")
      ⟨some "boolean", none, none⟩ "o/a@v1" 3 = [] ∧
    (validateSingleValueInput "debug" (.str "maybe")
      ⟨some "boolean", none, none⟩ "o/a@v1" 3).length = 1 := by
  refine ⟨fun v => ?_, by decide, by decide⟩
  cases v with
  | null => rfl
  | bool b => cases b <;> decide
  | num n => rfl
  | str s => rfl
  | arr items => rfl
  | obj fields => rfl

/-- **C3, counterexample.**  A resolved Choice descriptor whose option
text is not a fixed point of scalar normalization rejects its own
canonical value: the option `a  b` (double space) normalizes to `a b`,
which is not in the flattened options, so validating it yields one
diagnostic, not none. -/
theorem c3_option_not_normalization_stable :
    resolveTypeDefinition 1
        (.inr (TypeDefinition.mk "choice" none
          (some [ChoiceOptionSource.plain "a  b"]) none none)) [] =
      .ok (ResolvedTypeDefinition.mk .choice none (some ["a  b"]) none none) ∧
    (validateSingleValueInput "environment" (.str "a  b")
      ⟨some "choice", some ["a  b"], none⟩ "owner/app@v1" 3).length = 1 := by
  refine ⟨rfl, by decide⟩

/-- **C3, amended.**  Resolution flattens a choice's options into the
canonical value immediately followed by its alternatives, in declaration
order (the flattening happens in `resolveTypeDefinition`, not at
validation time), and validating any member of the flattened list yields
no diagnostic provided the member's text is unchanged by scalar
normalization (as every ordinary option literal is) and the descriptor
carries no match pattern. -/
theorem c3_choice_alternatives_flattened (opts : List ChoiceOptionSource)
    (reg : List (String × TypeDefinition)) (fuel : Nat)
    (inputName uses : String) (line : Nat) (o : String)
    (ho : o ∈ flattenChoiceOptions opts)
    (hfix : normalizeValue (.str o) = some o) :
    resolveTypeDefinition (fuel + 1)
        (.inr (TypeDefinition.mk "choice" none (some opts) none none)) reg =
      .ok (ResolvedTypeDefinition.mk .choice none
        (some (flattenChoiceOptions opts)) none none) ∧
    flattenChoiceOptions opts =
      opts.flatMap (fun opt =>
        match opt with
        | .plain s => [s]
        | .detailed v _ alts =>
          v :: (match alts with | some l => l | none => [])) ∧
    validateSingleValueInput inputName (.str o)
      ⟨some "choice", some (flattenChoiceOptions opts), none⟩ uses line = [] := by
  refine ⟨rfl, ?_, ?_⟩
  · unfold flattenChoiceOptions
    rw [foldl_append_flatMap
      (fun opt =>
        match opt with
        | .plain s => [s]
        | .detailed v _ alts =>
          v :: (match alts with | some l => l | none => []))]
    · simp
    · intro acc opt
      cases opt with
      | plain s => rfl
      | detailed v d alts => cases alts <;> simp
  · have hco : (flattenChoiceOptions opts).contains o = true := by
      simpa using ho
    unfold validateSingleValueInput
    rw [hfix]
    cases hce : containsExpression (jsToString (.str o)) with
    | true => simp [hce]
    | false =>
      simp only [hce, Bool.false_eq_true, if_false]
      simp [hco]
      exact fun _ => ho

/-- **C3, witness.** -/
theorem c3_choice_alternatives_flattened_witness :
    ("prod" ∈ flattenChoiceOptions
      [ChoiceOptionSource.detailed "production" none (some ["prod"])]) ∧
    validateSingleValueInput "environment" (.str "prod")
      ⟨some "choice",
       some (flattenChoiceOptions
         [ChoiceOptionSource.detailed "production" none (some ["prod"])]),
       none⟩ "owner/app@v1" 5 = [] :=
  ⟨by decide,
   (c3_choice_alternatives_flattened
     [ChoiceOptionSource.detailed "production" none (some ["prod"])] [] 0
     "environment" "owner/app@v1" 5 "prod" (by decide) (by decide)).2.2⟩

/-- **C4.**  `validateOutputReferences` produces exactly one diagnostic
per scanned `steps.<id>.outputs.<name>` occurrence whose `<id>` is a
known step with a resolvable schema and whose `<name>` is not among that
schema's outputs — with a message listing the available outputs, or
`none` when there are none — and produces nothing for occurrences with
an unknown `<id>`. -/
theorem c4_output_reference_diagnostics (blockText : String)
    (steps : List ReferencedStep) (schemas : List (String × ActionSchema))
    (blockStartLine : Nat) :
    validateOutputReferences blockText steps schemas blockStartLine =
      (scanOutputRefs blockText).filterMap (fun m =>
        match lookupAssoc (buildStepOutputs steps schemas) m.stepId with
        | none => none
        | some outputs =>
          if outputs.contains m.outputName then none
          else
            some ⟨"Unknown output '" ++ m.outputName ++ "' for step '" ++
                m.stepId ++ "'. Available outputs: " ++
                (if outputs.length > 0 then joinWith ", " outputs else "none"),
              blockStartLine + lineAtOffset blockText m.index - 1, 1⟩) :=
  validateOutputReferences_eq blockText steps schemas blockStartLine

/-- **C8.**  `validateStep` looks only at the step's `with` entries: a
step without a `with` map yields no diagnostics, the diagnostics are
invariant under arbitrary rewriting of every input's `required` flag
(so a required input absent from `with` can never produce a missing-input
diagnostic), and every diagnostic arises from some present `with`
entry. -/
theorem c8_diagnostics_only_from_with_entries (step : ReferencedStep)
    (schema : ActionSchema) (bsl : Nat) (f : String → Bool → Bool) :
    validateStep { step with withMap := none } schema bsl = [] ∧
    validateStep step (setRequired f schema) bsl =
      validateStep step schema bsl ∧
    ∀ e ∈ validateStep step schema bsl,
      ∃ entry ∈ step.withMap.getD [],
        e ∈ validateWithEntry step schema bsl entry := by
  refine ⟨rfl, ?_, ?_⟩
  · have hlook : ∀ k, lookupAssoc (setRequired f schema).inputs k =
        (lookupAssoc schema.inputs k).map
          (fun i => { i with required := f k i.required }) := by
      intro k
      unfold setRequired
      exact lookupAssoc_map_upd
        (fun k' i => { i with required := f k' i.required }) schema.inputs k
    have hentry : ∀ entry, validateWithEntry step (setRequired f schema) bsl entry =
        validateWithEntry step schema bsl entry := by
      intro entry
      unfold validateWithEntry
      simp only []
      rw [hlook]
      cases h : lookupAssoc schema.inputs entry.1 with
      | none => rfl
      | some i => rfl
    unfold validateStep
    cases step.withMap with
    | none => rfl
    | some entries =>
      exact List.flatMap_congr (fun entry _ => hentry entry)
  · intro e he
    unfold validateStep at he
    cases hw : step.withMap with
    | none =>
      rw [hw] at he
      exact absurd he (List.not_mem_nil e)
    | some entries =>
      rw [hw] at he
      rcases List.mem_flatMap.mp he with ⟨entry, hentry, hin⟩
      exact ⟨entry, by simpa [hw] using hentry, hin⟩

/-- **C8, witness.** -/
theorem c8_diagnostics_only_from_with_entries_witness :
    validateStep { walkStep with withMap := none } walkSchema 10 = [] ∧
    validateStep walkStep (setRequired (fun _ r => !r) walkSchema) 10 =
      validateStep walkStep walkSchema 10 :=
  ⟨(c8_diagnostics_only_from_with_entries walkStep walkSchema 10
      (fun _ r => !r)).1,
   (c8_diagnostics_only_from_with_entries walkStep walkSchema 10
      (fun _ r => !r)).2.1⟩

/-- **C9.**  Every step recorded by the strict-parse walk carries
`lineInBlock = 1` and no per-key `withLines`, so every diagnostic
`validateStep` emits for such a step sits at `blockStartLine + 1`,
wherever the offending entry actually was. -/
theorem c9_strict_parse_line_collapses (node : JsValue)
    (schemas : List (String × ActionSchema)) (schema : ActionSchema)
    (bsl : Nat) (step : ReferencedStep) (e : ValidationError)
    (hs : step ∈ findReferencedStepsInObject node schemas [])
    (he : e ∈ validateStep step schema bsl) :
    step.lineInBlock = 1 ∧ step.withLines = none ∧ e.line = bsl + 1 := by
  rcases mem_findReferencedStepsInObject node schemas [] step hs with h | ⟨h1, h2⟩
  · exact absurd h (List.not_mem_nil step)
  · refine ⟨h1, h2, ?_⟩
    have := (mem_validateStep he).2 h2
    rw [this, h1]

/-- **C9, witness.** -/
theorem c9_strict_parse_line_collapses_witness :
    walkStep ∈ findReferencedStepsInObject walkYaml [("o/r", walkSchema)] [] ∧
    (⟨"Unknown input 'bad-input' for action 'o/r@v1' (schema: action.yml)",
        11, 1⟩ : ValidationError) ∈ validateStep walkStep walkSchema 10 ∧
    (⟨"Unknown input 'bad-input' for action 'o/r@v1' (schema: action.yml)",
        11, 1⟩ : ValidationError).line = 10 + 1 :=
  ⟨by decide, by decide,
   (c9_strict_parse_line_collapses walkYaml [("o/r", walkSchema)] walkSchema
     10 walkStep
     ⟨"Unknown input 'bad-input' for action 'o/r@v1' (schema: action.yml)",
      11, 1⟩ (by decide) (by decide)).2.2⟩

/-- **C10.**  Every diagnostic of `validateStep` (either input path) and
of `validateOutputReferences` has column 1. -/
theorem c10_all_diagnostics_column_one (step : ReferencedStep)
    (schema : ActionSchema) (bsl : Nat) (e : ValidationError) (bt : String)
    (steps : List ReferencedStep) (reg : List (String × ActionSchema))
    (bsl2 : Nat) (e2 : ValidationError)
    (h1 : e ∈ validateStep step schema bsl)
    (h2 : e2 ∈ validateOutputReferences bt steps reg bsl2) :
    e.column = 1 ∧ e2.column = 1 :=
  ⟨(mem_validateStep h1).1, mem_validateOutputReferences_column h2⟩

/-- **C10, witness.** -/
theorem c10_all_diagnostics_column_one_witness :
    ((⟨"Unknown input 'bad-input' for action 'o/r@v1' (schema: action.yml)",
        11, 1⟩ : ValidationError) ∈ validateStep walkStep walkSchema 10) ∧
    ((⟨"Unknown output 'bogus' for step 'build'. Available outputs: result",
        1, 1⟩ : ValidationError) ∈
      validateOutputReferences "steps.build.outputs.bogus" [buildStep]
        [("o/r", buildSchema)] 1) ∧
    (⟨"Unknown input 'bad-input' for action 'o/r@v1' (schema: action.yml)",
        11, 1⟩ : ValidationError).column = 1 ∧
    (⟨"Unknown output 'bogus' for step 'build'. Available outputs: result",
        1, 1⟩ : ValidationError).column = 1 :=
  ⟨by decide, by decide,
   c10_all_diagnostics_column_one walkStep walkSchema 10
     ⟨"Unknown input 'bad-input' for action 'o/r@v1' (schema: action.yml)",
      11, 1⟩
     "steps.build.outputs.bogus" [buildStep] [("o/r", buildSchema)] 1
     ⟨"Unknown output 'bogus' for step 'build'. Available outputs: result",
      1, 1⟩ (by decide) (by decide)⟩

end ExampleChecker
